import Mathlib

/-!
Verification of the diesel-guard migration-safety linter.

This file gives a shallow embedding of the core of the linter:
the `Violation` record, the run configuration, the pg_query statement
tree fragment navigated by the built-in checks, the registry with its
ignore-range filter, the Rhai scripting bridge decoding, the regex-based
REINDEX detector, and the `SafetyChecker::check_sql` entry point.
Theorems at the end settle the specification claims against these
definitions.

String literals reproduce the source texts; the single-quote character
is spliced in via `sq` below.
-/

namespace DieselGuard

/-- The single-quote character, used inside reproduced message texts. -/
def sq : String := (Char.ofNat 39).toString

/-! ## Violation (src/violation.rs)

`Violation` is the uniform finding record.  `Violation::new` simply
stores its three arguments. -/

structure Violation where
  operation : String
  problem : String
  safe_alternative : String
deriving DecidableEq, Repr

/-- `Violation::new` from src/violation.rs: stores the three strings as given. -/
def Violation.new (operation problem safe_alternative : String) : Violation :=
  ⟨operation, problem, safe_alternative⟩

/-! ## Config (src/config.rs) -/

structure Config where
  framework : String
  start_after : Option String
  check_down : Bool
  disable_checks : List String
  custom_checks_dir : Option String
  postgres_version : Option Nat
deriving DecidableEq, Repr

/-- `Config::default` from src/config.rs. -/
def Config.default : Config :=
  ⟨"diesel", none, false, [], none, none⟩

/-- `Config::is_check_enabled`: a check is enabled iff its name is not in
`disable_checks` (src/config.rs lines 164-166). -/
def Config.is_check_enabled (cfg : Config) (check_name : String) : Bool :=
  !(cfg.disable_checks.any (fun c => c == check_name))

/-- Rust `config.postgres_version >= Some(n)` where `postgres_version` is an
`Option<u32>`: with the derived `Option` ordering `None` is below every
`Some`, so the comparison holds iff a version is set and is at least `n`. -/
def Config.pgVersionAtLeast (cfg : Config) (n : Nat) : Bool :=
  match cfg.postgres_version with
  | some v => n ≤ v
  | none => false

/-! ## pg_query statement-tree fragment

The pg_query protobuf `NodeEnum` is a large generated sum type; the
variants and fields below are the ones navigated by the checks under
verification.  A protobuf `Node` is a record with an optional `node`
field holding a `NodeEnum`, so lists of child nodes are embedded as
`List (Option NodeEnum)`; the `Option<Box<Node>>` fields `def` and
`raw_expr` are embedded flattened to one `Option` (the Rust navigation
composes the two layers with `and_then`, so the distinction between a
missing wrapper and a missing payload is unobservable).  `TypeName` is
embedded by its `names` field (a list of `String` nodes), which is the
only part the checks read.  Variants not inspected by the modelled
checks are collapsed into `otherNode`. -/

structure RangeVar where
  schemaname : String
  relname : String
deriving DecidableEq, Repr

inductive NodeEnum where
  | alterTableStmt (relation : Option RangeVar) (cmds : List (Option NodeEnum))
  | alterTableCmd (subtype : Int) (cmdDef : Option NodeEnum)
  | columnDef (colname : String) (typeName : Option (List (Option NodeEnum)))
      (constraints : List (Option NodeEnum))
  | constraintN (contype : Int) (rawExpr : Option NodeEnum)
  | aConst
  | funcCall
  | pgString (sval : String)
  | otherNode

/-- `ConstrType::ConstrDefault as i32` (pg_query protobuf numbering). -/
def constrDefault : Int := 3

/-- `AlterTableType::AtAddColumn as i32` (pg_query protobuf numbering). -/
def atAddColumn : Int := 1

/-! ## AST navigation helpers (src/checks/pg_helpers.rs) -/

/-- View of a protobuf `AlterTableCmd` as read by the checks. -/
structure AlterTableCmdView where
  subtype : Int
  cmdDef : Option NodeEnum

/-- View of a protobuf `ColumnDef` as read by the checks. -/
structure ColumnDefView where
  colname : String
  typeName : Option (List (Option NodeEnum))
  constraints : List (Option NodeEnum)

/-- `range_var_name`: schema-qualified table name (pg_helpers.rs lines 20-26). -/
def range_var_name (rv : RangeVar) : String :=
  if rv.schemaname = "" then rv.relname else rv.schemaname ++ "." ++ rv.relname

/-- `type_name_str`: last `String` segment of a `TypeName`'s names
(pg_helpers.rs lines 29-38); empty string when there is none. -/
def type_name_str (names : List (Option NodeEnum)) : String :=
  ((names.filterMap (fun n =>
    match n with
    | some (.pgString s) => some s
    | _ => none)).getLast?).getD ""

/-- `column_type_name` (pg_helpers.rs lines 41-46). -/
def column_type_name (col : ColumnDefView) : String :=
  (col.typeName.map type_name_str).getD ""

/-- `cmd_def_as_column_def` (pg_helpers.rs lines 61-66). -/
def cmd_def_as_column_def (cmd : AlterTableCmdView) : Option ColumnDefView :=
  match cmd.cmdDef with
  | some (.columnDef n t cs) => some ⟨n, t, cs⟩
  | _ => none

/-- `column_has_constraint` (pg_helpers.rs lines 101-108). -/
def column_has_constraint (col : ColumnDefView) (contype : Int) : Bool :=
  col.constraints.any (fun c =>
    match c with
    | some (.constraintN ct _) => ct == contype
    | _ => false)

/-- `alter_table_cmds` (pg_helpers.rs lines 122-142): for an
`AlterTableStmt`, the table name and the `AlterTableCmd` children. -/
def alter_table_cmds (node : NodeEnum) : Option (String × List AlterTableCmdView) :=
  match node with
  | .alterTableStmt relation cmds =>
      some ((relation.map range_var_name).getD "",
        cmds.filterMap (fun n =>
          match n with
          | some (.alterTableCmd st d) => some ⟨st, d⟩
          | _ => none))
  | _ => none

/-! ## AddColumnCheck (src/checks/add_column.rs) -/

/-- `is_constant_default` (add_column.rs lines 78-89): true iff some
constraint of the column is a `DEFAULT` constraint whose `raw_expr`
is an `AConst` node. -/
def is_constant_default (col : ColumnDefView) : Bool :=
  col.constraints.any (fun c =>
    match c with
    | some (.constraintN ct re) =>
        ct == constrDefault &&
          (match re with
           | some .aConst => true
           | _ => false)
    | _ => false)

/-- The `problem` text of an ADD COLUMN with DEFAULT violation
(add_column.rs lines 49-53, after `format!`). -/
def addColumnProblem (column table : String) : String :=
  "Adding column " ++ sq ++ column ++ sq ++ " with DEFAULT on table " ++ sq ++ table ++ sq ++
    " requires a full table rewrite on Postgres < 11, which acquires an ACCESS EXCLUSIVE lock and blocks all operations. Duration depends on table size."

/-- The `safe_alternative` text of an ADD COLUMN with DEFAULT violation
(add_column.rs lines 54-67, after `format!`). -/
def addColumnAlternative (table column data_type : String) : String :=
  "1. Add the column without a default:\n   ALTER TABLE " ++ table ++ " ADD COLUMN " ++
    column ++ " " ++ data_type ++
    ";\n\n2. Backfill data in batches (outside migration):\n   UPDATE " ++ table ++
    " SET " ++ column ++ " = <value> WHERE " ++ column ++
    " IS NULL;\n\n3. Add default for new rows only:\n   ALTER TABLE " ++ table ++
    " ALTER COLUMN " ++ column ++
    " SET DEFAULT <value>;\n\nNote: For Postgres 11+, this is safe if the default is a constant value."

/-- `AddColumnCheck::check` (add_column.rs lines 25-71). -/
def addColumnCheck_check (node : NodeEnum) (config : Config) : List Violation :=
  match alter_table_cmds node with
  | none => []
  | some (table_name, cmds) =>
      cmds.filterMap (fun cmd =>
        match cmd_def_as_column_def cmd with
        | none => none
        | some col =>
            if !column_has_constraint col constrDefault then none
            else if config.pgVersionAtLeast 11 && is_constant_default col then none
            else
              some (Violation.new "ADD COLUMN with DEFAULT"
                (addColumnProblem col.colname table_name)
                (addColumnAlternative table_name col.colname (column_type_name col))))

/-! Concrete pg_query parse results used by the scenario claims.
These are the statement trees pg_query produces for the scenario SQL
(the parser is an external collaborator; its output is the input of
the check under verification). -/

/-- Parse tree of `ALTER TABLE users ADD COLUMN admin BOOLEAN DEFAULT FALSE;`. -/
def addColumnDefaultFalseStmt : NodeEnum :=
  .alterTableStmt (some ⟨"", "users"⟩)
    [some (.alterTableCmd atAddColumn
      (some (.columnDef "admin"
        (some [some (.pgString "pg_catalog"), some (.pgString "bool")])
        [some (.constraintN constrDefault (some .aConst))])))]

/-- Parse tree of `ALTER TABLE users ADD COLUMN created_at TIMESTAMP DEFAULT now();`:
the default expression is a function call, not an `AConst`. -/
def addColumnDefaultNowStmt : NodeEnum :=
  .alterTableStmt (some ⟨"", "users"⟩)
    [some (.alterTableCmd atAddColumn
      (some (.columnDef "created_at"
        (some [some (.pgString "pg_catalog"), some (.pgString "timestamp")])
        [some (.constraintN constrDefault (some .funcCall))])))]

/-- A `Config` with only the target postgres version set. -/
def pgConfig (v : Nat) : Config :=
  ⟨"diesel", none, false, [], none, some v⟩

/-! ## Registry (src/checks/mod.rs)

The registry owns `checks: Vec<Box<dyn Check>>`; a `dyn Check` is a name
together with a `check` function over a node and the config, embedded
here as a `Check` structure.  Byte offsets and lengths are `Nat`
(Rust `usize`; the values in play are far below `2^64`, and no
arithmetic in this code can overflow). -/

/-- A registered check: `name()` plus the `check` method of the
`Check` trait (checks/mod.rs lines 85-95). -/
structure Check where
  name : String
  run : NodeEnum → Config → List Violation

/-- `IgnoreRange` (one safety-assured block), with 1-indexed
`start_line`/`end_line` marker lines. -/
structure IgnoreRange where
  start_line : Nat
  end_line : Nat
deriving DecidableEq, Repr

/-- `RawStmt`: one parsed statement with its recorded byte offset.  The
protobuf `stmt` field is an optional node; `extract_node` reads it. -/
structure RawStmt where
  stmt_location : Nat
  stmt : Option NodeEnum

/-- Modelled from the spec: `extract_node` is referenced from
checks/mod.rs but its definition is not part of the sources under
verification; per the spec the statement tree is an already-parsed
optional payload of the raw statement, so extraction reads that field. -/
def extract_node (raw : RawStmt) : Option NodeEnum :=
  raw.stmt

/-- `Registry::check_node` (checks/mod.rs lines 162-167): run every
registered check on the node, concatenating results in registry order. -/
def check_node (checks : List Check) (node : NodeEnum) (config : Config) : List Violation :=
  checks.flatMap (fun check => check.run node config)

/-- Membership in the `ignored_lines` set built in
`check_stmts_with_context` (checks/mod.rs lines 181-184): the union of
`(range.start_line + 1)..range.end_line` over all ranges. -/
def isIgnoredLine (ranges : List IgnoreRange) (line : Nat) : Bool :=
  ranges.any (fun r => r.start_line + 1 ≤ line && line < r.end_line)

/-- `byte_offset_to_line` (checks/mod.rs lines 216-219): clamp the
offset to the text length and count newline bytes before it, 1-indexed.
The source text is embedded as its character list (the sources in play
are ASCII, so bytes and characters coincide). -/
def byte_offset_to_line (sql : List Char) (byte_offset : Nat) : Nat :=
  ((sql.take (min byte_offset sql.length)).count '\n') + 1

/-- Rust `slice::binary_search` on a `&[usize]` (used by
`first_token_at_or_after`): the standard halving loop; `Except.ok i`
means `xs[i] = target`, `Except.error i` is the insertion point. -/
def binSearchAux (xs : List Nat) (target : Nat) (left right : Nat) : Except Nat Nat :=
  if h : left < right then
    let mid := left + (right - left) / 2
    let v := xs.getD mid 0
    if v < target then binSearchAux xs target (mid + 1) right
    else if target < v then binSearchAux xs target left mid
    else .ok mid
  else .error left
termination_by right - left
decreasing_by
  · omega
  · omega

/-- `first_token_at_or_after` (checks/mod.rs lines 239-244): binary
search for `offset`; on a miss take the element at the insertion point,
falling back to `offset` itself when no token starts at or after it. -/
def first_token_at_or_after (token_starts : List Nat) (offset : Nat) : Nat :=
  match binSearchAux token_starts offset 0 token_starts.length with
  | .ok i => token_starts.getD i 0
  | .error i => (token_starts.get? i).getD offset

/-- Per-statement contribution of the loop body of
`Registry::check_stmts_with_context` (checks/mod.rs lines 192-204):
skip statements without a node, resolve the statement's line from the
scanner's non-comment token starts, and run the checks unless the line
is ignored.  `token_starts` is the output of the external
`pg_query::scan`-based `non_comment_token_starts`. -/
def stmtContribution (checks : List Check) (token_starts : List Nat) (sql : List Char)
    (ranges : List IgnoreRange) (config : Config) (raw : RawStmt) : List Violation :=
  match extract_node raw with
  | none => []
  | some node =>
      let offset := first_token_at_or_after token_starts raw.stmt_location
      let stmt_line := byte_offset_to_line sql offset
      if isIgnoredLine ranges stmt_line then [] else check_node checks node config

/-- `Registry::check_stmts_with_context` (checks/mod.rs lines 173-207):
fold over the statements in source order, extending the accumulated
violations with each statement's contribution. -/
def check_stmts_with_context (checks : List Check) (stmts : List RawStmt)
    (token_starts : List Nat) (sql : List Char) (ranges : List IgnoreRange)
    (config : Config) : List Violation :=
  stmts.foldl (fun acc raw =>
    acc ++ stmtContribution checks token_starts sql ranges config raw) []

/-- `Registry::register_check` (checks/mod.rs lines 154-159) iterated by
`register_enabled_checks` (lines 116-141): push each check whose name is
enabled, in the fixed source order of the argument list. -/
def register_enabled_checks (config : Config) (builtins : List Check) : List Check :=
  builtins.foldl (fun acc check =>
    if config.is_check_enabled check.name then acc ++ [check] else acc) []

/-- The fixed order in which `register_enabled_checks` registers the
built-in checks (checks/mod.rs lines 117-140). -/
def builtin_check_name_order : List String :=
  ["AddColumnCheck", "AddIndexCheck", "AddJsonColumnCheck", "AddNotNullCheck",
   "AddPrimaryKeyCheck", "AddSerialColumnCheck", "AddUniqueConstraintCheck",
   "AlterColumnTypeCheck", "CharTypeCheck", "CreateExtensionCheck",
   "DropColumnCheck", "DropDatabaseCheck", "DropIndexCheck",
   "DropPrimaryKeyCheck", "DropTableCheck", "GeneratedColumnCheck",
   "ReindexCheck", "RenameColumnCheck", "RenameTableCheck",
   "ShortIntegerPrimaryKeyCheck", "TimestampTypeCheck", "TruncateTableCheck",
   "UnnamedConstraintCheck", "WideIndexCheck"]

/-! ## Scripting bridge (src/scripting.rs)

A Rhai `Dynamic` value is embedded by the cases the decoder
distinguishes: unit, string, integer, boolean, array, and map.  A Rhai
`Map` is a `BTreeMap` keyed by strings; it is embedded as an
association list with unique keys, and `keys()` iteration (used only in
an error message) is rendered in sorted order as the `BTreeMap` does. -/

inductive Dynamic where
  | unit
  | str (s : String)
  | int (n : Int)
  | boolean (b : Bool)
  | array (xs : List Dynamic)
  | map (entries : List (String × Dynamic))

/-- Rhai `Dynamic::type_name` for the embedded cases. -/
def Dynamic.typeName : Dynamic → String
  | .unit => "()"
  | .str _ => "string"
  | .int _ => "i64"
  | .boolean _ => "bool"
  | .array _ => "array"
  | .map _ => "map"

/-- Rhai `Dynamic::into_string`: succeeds exactly on strings. -/
def Dynamic.intoString : Dynamic → Option String
  | .str s => some s
  | _ => none

/-- `map.get(key)` on the embedded `BTreeMap`. -/
def mapGet (entries : List (String × Dynamic)) (key : String) : Option Dynamic :=
  (entries.find? (fun e => e.1 == key)).map (fun e => e.2)

/-- The `problem` text of the missing-keys synthetic violation
(scripting.rs lines 123-130, after `format!`; the backslash line
continuation collapses to a single space). -/
def missingKeysProblem (keys : List String) : String :=
  "Custom check returned a map missing required keys (need " ++ sq ++ "operation" ++ sq ++
    ", " ++ sq ++ "problem" ++ sq ++ ", " ++ sq ++ "safe_alternative" ++ sq ++
    "), got keys: [" ++ String.intercalate ", " keys ++ "]"

/-- `map_to_violation` (scripting.rs lines 107-135): a non-map value
decodes to `none`; a map with all three required string fields decodes
to a violation carrying them verbatim; any other map decodes to the
missing-keys synthetic violation naming the script. -/
def map_to_violation (check_name : String) (value : Dynamic) : Option Violation :=
  match value with
  | .map m =>
      let operation := (mapGet m "operation").bind Dynamic.intoString
      let problem := (mapGet m "problem").bind Dynamic.intoString
      let safe_alternative := (mapGet m "safe_alternative").bind Dynamic.intoString
      match operation, problem, safe_alternative with
      | some op, some prob, some alt => some (Violation.new op prob alt)
      | _, _, _ =>
          some (Violation.new ("SCRIPT ERROR: " ++ check_name)
            (missingKeysProblem ((m.map Prod.fst).mergeSort (fun a b => a ≤ b)))
            "Fix the custom check script to return all three required keys.")
  | _ => none

/-- `parse_script_result` (scripting.rs lines 75-104): unit means no
violation, a map decodes through `map_to_violation`, an array decodes
element-wise dropping the non-map elements, and every other type yields
one synthetic wrong-type violation naming the script. -/
def parse_script_result (check_name : String) (result : Dynamic) : List Violation :=
  match result with
  | .unit => []
  | .map m =>
      match map_to_violation check_name (.map m) with
      | some v => [v]
      | none => []
  | .array xs => xs.filterMap (fun v => map_to_violation check_name v)
  | other =>
      [Violation.new ("SCRIPT ERROR: " ++ check_name)
        ("Custom check returned " ++ other.typeName ++ ", expected (), map, or array")
        "Fix the custom check script to return a valid type."]

/-- `CustomCheck::check` (scripting.rs lines 34-66).  Serialisation of
the node (Rhai serde) and evaluation of the compiled script (the Rhai
engine, including its operation-budget `ErrorTerminated` termination)
are external; their outcomes are inputs.  A serialisation failure and
every evaluation error alike yield no violations (the warning printed
for non-budget errors is I/O with no effect on the result). -/
def customCheck_check (check_name : String) (serialized : Except String Dynamic)
    (evalScript : Dynamic → Except String Dynamic) : List Violation :=
  match serialized with
  | .error _ => []
  | .ok node =>
      match evalScript node with
      | .ok result => parse_script_result check_name result
      | .error _ => []

/-- `ScriptError` (scripting.rs lines 10-14). -/
structure ScriptError where
  file : String
  message : String
deriving DecidableEq, Repr

/-- A compiled custom check: file stem plus the compiled script's
evaluation behaviour. -/
structure CustomCheckM where
  name : String
  eval : Dynamic → Except String Dynamic

/-- One directory entry as seen by `load_custom_checks`: its file name,
whether its extension is `rhai`, its file stem, and the outcome of
reading it. -/
structure DirEntry where
  fileName : String
  hasRhaiExt : Bool
  stem : String
  source : Except String String

/-- `load_custom_checks` (scripting.rs lines 211-282): keep the `.rhai`
entries, sort them by file name for deterministic order, skip disabled
stems, record read and compile failures as non-fatal `ScriptError`s and
collect the successfully compiled checks in order.  Directory listing
and Rhai compilation are external; the entry list and the `compile`
outcome function are inputs (the unreadable-directory early return is
outside this embedding). -/
def load_custom_checks (compile : String → Except String (Dynamic → Except String Dynamic))
    (entries : List DirEntry) (config : Config) :
    List CustomCheckM × List ScriptError :=
  let files := (entries.filter (fun e => e.hasRhaiExt)).mergeSort
    (fun a b => a.fileName ≤ b.fileName)
  files.foldl (fun acc e =>
    if !(config.is_check_enabled e.stem) then acc
    else
      match e.source with
      | .error msg => (acc.1, acc.2 ++ [⟨e.fileName, "Failed to read: " ++ msg⟩])
      | .ok src =>
          match compile src with
          | .ok evalFn => (acc.1 ++ [⟨e.stem, evalFn⟩], acc.2)
          | .error msg => (acc.1, acc.2 ++ [⟨e.fileName, "Compilation error: " ++ msg⟩]))
    ([], [])

/-- Lift a compiled custom check into the registry's `Check` shape via
`CustomCheck::check`; `serialize` is the external Rhai serde encoding
of the statement tree. -/
def customCheckToCheck (serialize : NodeEnum → Except String Dynamic)
    (cc : CustomCheckM) : Check :=
  ⟨cc.name, fun node _config => customCheck_check cc.name (serialize node) cc.eval⟩

/-- Modelled from the spec: the composition that appends the loaded
custom checks to the built-in registry ("instantiate every built-in
check whose name is not in the disabled set, in a fixed canonical
order; then, if a custom-script directory is configured, load and
append scripts") is performed by a caller outside the sources under
verification; only the two halves it composes are in them. -/
def full_registry (config : Config) (builtins : List Check)
    (serialize : NodeEnum → Except String Dynamic)
    (compile : String → Except String (Dynamic → Except String Dynamic))
    (entries : List DirEntry) : List Check :=
  register_enabled_checks config builtins ++
    (load_custom_checks compile entries config).1.map (customCheckToCheck serialize)

/-! ## DropTableCheck (src/checks/drop_table.rs)

This check matches over the sqlparser `Statement` AST.  The `Drop`
variant is embedded with the fields the check reads; an `ObjectName` is
embedded as its rendered string (the check only calls `to_string()` on
it); the remaining statement variants, which the check ignores, are
collapsed into `otherStatement`. -/

inductive SqlObjectType where
  | table
  | index
  | view
  | schema
  | sequence
  | role
deriving DecidableEq, Repr

inductive SqlStatement where
  | dropStmt (object_type : SqlObjectType) (if_exists : Bool)
      (names : List String) (cascade : Bool) (restrict : Bool)
  | otherStatement
deriving DecidableEq, Repr

/-- `if_exists_clause` (checks/mod.rs helpers, lines 65-67). -/
def if_exists_clause (if_exists : Bool) : String :=
  if if_exists then " IF EXISTS" else ""

/-- The modifiers string built in `DropTableCheck::check`
(drop_table.rs lines 40-46). -/
def dropModifiers (cascade restrict : Bool) : String :=
  (if cascade then " CASCADE" else "") ++ (if restrict then " RESTRICT" else "")

/-- The `problem` text of a DROP TABLE violation (drop_table.rs
lines 50-54, after `format!`). -/
def dropTableProblem (table : String) : String :=
  "Dropping table " ++ sq ++ table ++ sq ++
    " permanently deletes all data and acquires an ACCESS EXCLUSIVE lock. This operation cannot be undone after the transaction commits."

/-- The `safe_alternative` text of a DROP TABLE violation (drop_table.rs
lines 55-70, after `format!` on the raw string). -/
def dropTableAlternative (if_exists : Bool) (table : String) (cascade restrict : Bool) : String :=
  "Before dropping a table in production:\n\n1. Verify this is intentional and the table is no longer in use\n2. Ensure a backup exists or data has been migrated\n3. Check for foreign key dependencies that may block the drop\n\nIf this drop is intentional, wrap it in a safety-assured block:\n   -- safety-assured:start\n   DROP TABLE" ++
    if_exists_clause if_exists ++ " " ++ table ++ dropModifiers cascade restrict ++
    ";\n   -- safety-assured:end\n\nNote: DROP TABLE acquires ACCESS EXCLUSIVE lock, blocking all operations until complete."

/-- The violation pushed for one dropped table (drop_table.rs lines 48-71). -/
def dropTableViolation (if_exists : Bool) (cascade restrict : Bool) (table : String) : Violation :=
  Violation.new "DROP TABLE" (dropTableProblem table)
    (dropTableAlternative if_exists table cascade restrict)

/-- `DropTableCheck::check` (drop_table.rs lines 21-77): on a `Drop` of
object type `Table`, push one violation per named target in order;
everything else yields no violations. -/
def dropTableCheck_check (stmt : SqlStatement) : List Violation :=
  match stmt with
  | .dropStmt object_type if_exists names cascade restrict =>
      if object_type = .table then
        names.map (dropTableViolation if_exists cascade restrict)
      else []
  | .otherStatement => []

/-! ## REINDEX detector (src/parser/reindex_detector.rs)

The detector runs the regex
`(?i)REINDEX\s+(?:\([^)]*\)\s+)?(INDEX|TABLE|SCHEMA|DATABASE)\s+(CONCURRENTLY\s+)?([^\s;]+)`
over the raw SQL with `captures_iter`.  The matcher below implements
exactly this pattern with the regex crate's leftmost-first semantics:
match attempts start at each position in order, optional groups are
taken greedily with backtracking, the alternation tries its branches in
written order, and after a match the scan resumes at the match end
(matches do not overlap). -/

structure ReindexMatch where
  reindex_type : String
  target_name : String
deriving DecidableEq, Repr

/-- `\s` on the ASCII range: space, tab, newline, carriage return,
vertical tab, form feed. -/
def isWsChar (c : Char) : Bool :=
  c == ' ' || c == '\t' || c == '\n' || c == '\r' || c == Char.ofNat 11 || c == Char.ofNat 12

/-- Case-insensitive literal match: `pat` is given lowercase; returns
the remaining input on success. -/
def matchCI : List Char → List Char → Option (List Char)
  | [], cs => some cs
  | _ :: _, [] => none
  | p :: ps, c :: cs => if c.toLower == p then matchCI ps cs else none

/-- `\s+`: one whitespace character then greedily all following ones. -/
def ws1 : List Char → Option (List Char)
  | c :: cs => if isWsChar c then some (cs.dropWhile isWsChar) else none
  | [] => none

/-- The optional option-list group `\([^)]*\)\s+`. -/
def parensGroup (cs : List Char) : Option (List Char) :=
  match cs with
  | '(' :: rest =>
      match rest.dropWhile (fun c => !(c == ')')) with
      | ')' :: rest2 => ws1 rest2
      | _ => none
  | _ => none

/-- The target `[^\s;]+`: a maximal nonempty run of characters that are
neither whitespace nor a semicolon. -/
def takeTarget (cs : List Char) : Option (String × List Char) :=
  let t := cs.takeWhile (fun c => !(isWsChar c) && !(c == ';'))
  if t.isEmpty then none else some (String.mk t, cs.drop t.length)

/-- ASCII lowercasing of a string, character by character (Rust
`eq_ignore_ascii_case` is modelled by comparing lowercased strings). -/
def strToLower (s : String) : String :=
  String.mk (s.toList.map Char.toLower)

/-- ASCII uppercasing of a string, character by character (Rust
`str::to_uppercase` on the ASCII keywords captured here). -/
def strToUpper (s : String) : String :=
  String.mk (s.toList.map Char.toUpper)

/-- The type alternation `(INDEX|TABLE|SCHEMA|DATABASE)`, tried in that
order (the patterns are given lowercase); captures the matched text as
written in the input. -/
def matchKind : List String → List Char → Option (List Char × List Char)
  | [], _ => none
  | k :: ks, cs =>
      match matchCI k.toList cs with
      | some rest => some (cs.take k.length, rest)
      | none => matchKind ks cs

/-- The optional `(CONCURRENTLY\s+)` capture group. -/
def concGroup (cs : List Char) : Option (List Char) :=
  match matchCI "concurrently".toList cs with
  | some rest => ws1 rest
  | none => none

/-- One match attempt of the REINDEX regex at the head of the input:
the captured type text, whether the CONCURRENTLY group matched, the
captured target, and the input remaining after the match. -/
def matchReindexAt (cs : List Char) : Option ((String × Bool × String) × List Char) :=
  match matchCI "reindex".toList cs with
  | none => none
  | some r1 =>
      match ws1 r1 with
      | none => none
      | some r2 =>
          let core := fun (s : List Char) =>
            match matchKind ["index", "table", "schema", "database"] s with
            | none => none
            | some (ty, r3) =>
                match ws1 r3 with
                | none => none
                | some r4 =>
                    match (match concGroup r4 with
                           | some r5 =>
                               (takeTarget r5).map
                                 (fun (tr : String × List Char) =>
                                   ((String.mk ty, true, tr.1), tr.2))
                           | none => none) with
                    | some res => some res
                    | none =>
                        (takeTarget r4).map
                          (fun (tr : String × List Char) =>
                            ((String.mk ty, false, tr.1), tr.2))
          match parensGroup r2 with
          | some r3 =>
              match core r3 with
              | some res => some res
              | none => core r2
          | none => core r2

/-- `captures_iter`: try a match at every position left to right,
resuming after each match end.  The fuel starts at the input length,
which bounds the number of steps since every step consumes at least one
character. -/
def scanReindexAux : Nat → List Char → List (String × Bool × String)
  | 0, _ => []
  | _, [] => []
  | fuel + 1, c :: rest =>
      match matchReindexAt (c :: rest) with
      | some (m, after) => m :: scanReindexAux fuel after
      | none => scanReindexAux fuel rest

/-- `detect_reindex_violations` (reindex_detector.rs lines 42-65): drop
the matches whose CONCURRENTLY group matched, skip the invalid
`IF EXISTS` spelling, uppercase the captured type. -/
def detect_reindex_violations (sql : String) : List ReindexMatch :=
  (scanReindexAux sql.toList.length sql.toList).filterMap (fun m =>
    match m with
    | (ty, conc, target) =>
        if conc then none
        else if strToLower target == "if" then none
        else some ⟨strToUpper ty, target⟩)

/-! ## SafetyChecker::check_sql (src/safety_checker.rs)

The sqlparser front-end (`SqlParser::parse_with_metadata`) is an
external collaborator; its outcome is an input.  The registry run over
the parsed statements (`check_statements_with_context`) is likewise
taken as a function of the parsed result. -/

/-- `ParsedSql` (parser/mod.rs lines 15-19). -/
structure ParsedSqlM where
  statements : List SqlStatement
  sql : String
  ignore_ranges : List IgnoreRange

/-- The `target_desc` rendering in `create_reindex_violation`
(safety_checker.rs lines 87-94). -/
def reindexTargetDesc (m : ReindexMatch) : String :=
  if m.reindex_type = "INDEX" then "index " ++ sq ++ m.target_name ++ sq
  else if m.reindex_type = "TABLE" then "table " ++ sq ++ m.target_name ++ sq
  else if m.reindex_type = "SCHEMA" then "schema " ++ sq ++ m.target_name ++ sq
  else if m.reindex_type = "DATABASE" then "database " ++ sq ++ m.target_name ++ sq
  else if m.reindex_type = "SYSTEM" then "system catalogs in " ++ sq ++ m.target_name ++ sq
  else m.target_name

/-- `SafetyChecker::create_reindex_violation` (safety_checker.rs
lines 86-134), with the two `format!` texts spelled out. -/
def create_reindex_violation (m : ReindexMatch) : Violation :=
  Violation.new "REINDEX without CONCURRENTLY"
    ("REINDEX " ++ m.reindex_type ++ " " ++ sq ++ m.target_name ++ sq ++
      " without CONCURRENTLY acquires an ACCESS EXCLUSIVE lock, blocking all operations on the " ++
      reindexTargetDesc m ++ " until complete. Duration depends on index size.")
    ("Use REINDEX CONCURRENTLY for lock-free reindexing (PostgreSQL 12+):\n\n   REINDEX " ++
      m.reindex_type ++ " CONCURRENTLY " ++ m.target_name ++
      ";\n\nNote: CONCURRENTLY requires PostgreSQL 12+ and cannot be run inside a transaction block.\n\nFor Diesel migrations:\n1. Create metadata.toml in your migration directory:\n   run_in_transaction = false\n\n2. Use REINDEX CONCURRENTLY in your up.sql:\n   REINDEX " ++
      m.reindex_type ++ " CONCURRENTLY " ++ m.target_name ++
      ";\n\nFor SQLx migrations:\n1. Add the no-transaction directive at the top of your migration file:\n   -- no-transaction\n\n2. Use REINDEX CONCURRENTLY:\n   REINDEX " ++
      m.reindex_type ++ " CONCURRENTLY " ++ m.target_name ++
      ";\n\nConsiderations:\n- Takes longer to complete than regular REINDEX\n- Allows concurrent read/write operations\n- If it fails, the index may be left in \"invalid\" state and need manual cleanup\n- Cannot be rolled back (no transaction support)")

/-- `SafetyChecker::detect_reindex_violations` (safety_checker.rs
lines 73-83): empty when `ReindexCheck` is disabled, otherwise one
violation per raw-text match. -/
def checker_detect_reindex_violations (config : Config) (sql : String) : List Violation :=
  if !(config.is_check_enabled "ReindexCheck") then []
  else (detect_reindex_violations sql).map create_reindex_violation

/-- `SafetyChecker::check_sql` (safety_checker.rs lines 39-70):
REINDEX violations are collected from the raw text before parsing;
on a parse success they are followed by the registry's violations; on a
parse failure the REINDEX violations are returned as the successful
result whenever any REINDEX pattern is present (even with the check
disabled), and only otherwise is the parse error propagated. -/
def check_sql (config : Config) (registryCheck : ParsedSqlM → List Violation)
    (sql : String) (parseResult : Except String ParsedSqlM) :
    Except String (List Violation) :=
  let violations := checker_detect_reindex_violations config sql
  let has_any_reindex := !(detect_reindex_violations sql).isEmpty
  match parseResult with
  | .ok parsed => .ok (violations ++ registryCheck parsed)
  | .error e =>
      if !violations.isEmpty || has_any_reindex then .ok violations else .error e

/-- A script return record is well formed for a violation `v` when it
is a map whose three required fields are strings carrying exactly the
fields of `v`. -/
def WellFormedRecord (d : Dynamic) (v : Violation) : Prop :=
  ∃ m, d = .map m ∧
    (mapGet m "operation").bind Dynamic.intoString = some v.operation ∧
    (mapGet m "problem").bind Dynamic.intoString = some v.problem ∧
    (mapGet m "safe_alternative").bind Dynamic.intoString = some v.safe_alternative

/-- Adding one name to a configuration's `disable_checks`. -/
def disableAlso (config : Config) (x : String) : Config :=
  ⟨config.framework, config.start_after, config.check_down,
    config.disable_checks ++ [x], config.custom_checks_dir, config.postgres_version⟩

/-- The effect of one directory entry in `load_custom_checks`: the
compiled check it contributes, if any (disabled stems, unreadable files
and compile failures contribute none). -/
def keepEntry (compile : String → Except String (Dynamic → Except String Dynamic))
    (config : Config) (e : DirEntry) : Option CustomCheckM :=
  if !(config.is_check_enabled e.stem) then none
  else
    match e.source with
    | .error _ => none
    | .ok src =>
        match compile src with
        | .ok evalFn => some ⟨e.stem, evalFn⟩
        | .error _ => none

/-! ## Helper lemmas -/

theorem foldl_append_eq_flatMap {α β : Type _} (f : α → List β) :
    ∀ (l : List α) (init : List β),
      l.foldl (fun acc x => acc ++ f x) init = init ++ l.flatMap f := by
  intro l
  induction l with
  | nil => intro init; simp
  | cons x xs ih =>
      intro init
      simp only [List.foldl_cons, List.flatMap_cons, ih, List.append_assoc]

theorem filter_foldl {α : Type _} (p : α → Bool) :
    ∀ (l : List α) (init : List α),
      l.foldl (fun acc c => if p c then acc ++ [c] else acc) init = init ++ l.filter p := by
  intro l
  induction l with
  | nil => intro init; simp
  | cons x xs ih =>
      intro init
      by_cases hx : p x = true
      · simp [List.foldl_cons, hx, ih, List.filter_cons]
      · simp [List.foldl_cons, hx, ih, List.filter_cons]

theorem append_ne_left (a b : String) (h : a ≠ "") : a ++ b ≠ "" := by
  intro hab
  apply h
  cases a with
  | mk da =>
      cases b with
      | mk db =>
          have hd : da ++ db = [] := congrArg String.data hab
          have hda : da = [] := (List.append_eq_nil.mp hd).1
          rw [hda]

/-! ## Claim theorems -/

/-- Claim C3: on `ALTER TABLE users ADD COLUMN admin BOOLEAN DEFAULT FALSE;`
the check emits exactly one "ADD COLUMN with DEFAULT" violation when no
target version is set and none when the target version is 11; on
`DEFAULT now()` it emits exactly one violation whatever the configured
version; and a default is classified constant exactly when its
expression is an `AConst` node. -/
theorem c3_add_column_version_gate :
    (addColumnCheck_check addColumnDefaultFalseStmt Config.default).map
      (fun v => v.operation) = ["ADD COLUMN with DEFAULT"] ∧
    addColumnCheck_check addColumnDefaultFalseStmt (pgConfig 11) = [] ∧
    (∀ version : Option Nat,
      (addColumnCheck_check addColumnDefaultNowStmt
        ⟨"diesel", none, false, [], none, version⟩).map (fun v => v.operation) =
        ["ADD COLUMN with DEFAULT"]) ∧
    (∀ col : ColumnDefView, is_constant_default col = true ↔
      ∃ c ∈ col.constraints, c = some (.constraintN constrDefault (some .aConst))) := by
  refine ⟨rfl, rfl, ?_, ?_⟩
  · intro version
    cases version with
    | none => rfl
    | some v =>
        simp [addColumnCheck_check, addColumnDefaultNowStmt, alter_table_cmds,
          cmd_def_as_column_def, column_has_constraint, is_constant_default,
          Violation.new]
  · intro col
    unfold is_constant_default
    rw [List.any_eq_true]
    constructor
    · rintro ⟨c, hc, hpred⟩
      refine ⟨c, hc, ?_⟩
      match c with
      | none => simp at hpred
      | some (.alterTableStmt _ _) => simp at hpred
      | some (.alterTableCmd _ _) => simp at hpred
      | some (.columnDef _ _ _) => simp at hpred
      | some (.constraintN ct re) =>
          simp only [Bool.and_eq_true, beq_iff_eq] at hpred
          obtain ⟨hct, hre⟩ := hpred
          match re with
          | none => simp at hre
          | some .aConst => rw [hct]
          | some (.alterTableStmt _ _) => simp at hre
          | some (.alterTableCmd _ _) => simp at hre
          | some (.columnDef _ _ _) => simp at hre
          | some (.constraintN _ _) => simp at hre
          | some .funcCall => simp at hre
          | some (.pgString _) => simp at hre
          | some .otherNode => simp at hre
      | some .aConst => simp at hpred
      | some .funcCall => simp at hpred
      | some (.pgString _) => simp at hpred
      | some .otherNode => simp at hpred
    · rintro ⟨c, hc, rfl⟩
      exact ⟨_, hc, by simp⟩

/-- Claim C9: `DropTableCheck::check` on a DROP TABLE naming `k` tables
returns exactly `k` violations, one per name in order, all with
operation "DROP TABLE", each problem text naming its own table. -/
theorem c9_drop_table_multi :
    ∀ (if_exists cascade restrict : Bool) (names : List String),
      (dropTableCheck_check (.dropStmt .table if_exists names cascade restrict)).length =
        names.length ∧
      (∀ v ∈ dropTableCheck_check (.dropStmt .table if_exists names cascade restrict),
        v.operation = "DROP TABLE") ∧
      (∀ i (h : i < names.length),
        (dropTableCheck_check (.dropStmt .table if_exists names cascade restrict)).get
            ⟨i, by simpa [dropTableCheck_check] using h⟩ =
          dropTableViolation if_exists cascade restrict (names.get ⟨i, h⟩)) ∧
      (∀ table : String,
        (dropTableViolation if_exists cascade restrict table).problem =
          "Dropping table " ++ sq ++ table ++ sq ++
            " permanently deletes all data and acquires an ACCESS EXCLUSIVE lock. This operation cannot be undone after the transaction commits.") := by
  intro if_exists cascade restrict names
  refine ⟨?_, ?_, ?_, ?_⟩
  · simp [dropTableCheck_check]
  · intro v hv
    simp only [dropTableCheck_check, if_pos, List.mem_map] at hv
    obtain ⟨nm, _, rfl⟩ := hv
    rfl
  · intro i h
    simp [dropTableCheck_check]
  · intro table
    rfl

/-- Witness for C9 at a concrete three-table drop. -/
theorem c9_drop_table_multi_witness :
    (dropTableCheck_check (.dropStmt .table false ["a", "b", "c"] false false)).length = 3 ∧
    (dropTableCheck_check
      (.dropStmt .table false ["a", "b", "c"] false false)).map (fun v => v.operation) =
      ["DROP TABLE", "DROP TABLE", "DROP TABLE"] := by
  have h := c9_drop_table_multi false false false ["a", "b", "c"]
  refine ⟨h.1, ?_⟩
  have h2 := h.2.1
  have m1 := h2 (dropTableViolation false false false "a") (by rw [dropTableCheck_check]; simp)
  rfl

/-- Claim C5: every failure of custom-script evaluation — any runtime
error, including the operation-budget `ErrorTerminated` outcome, and a
node-serialisation failure alike — makes `CustomCheck::check` return
the empty violation list; nothing propagates. -/
theorem c5_script_failure_fail_open :
    ∀ (check_name : String) (d : Dynamic)
      (evalScript : Dynamic → Except String Dynamic) (msg : String),
      (evalScript d = .error msg →
        customCheck_check check_name (.ok d) evalScript = []) ∧
      (customCheck_check check_name (.error msg) evalScript = []) := by
  intro check_name d evalScript msg
  constructor
  · intro he
    simp [customCheck_check, he]
  · rfl

/-- Witness for C5: a script that terminates with the budget error
yields no violations. -/
theorem c5_script_failure_fail_open_witness :
    customCheck_check "my_check" (.ok .unit)
      (fun _ => .error "ErrorTerminated: operation budget exceeded") = [] :=
  (c5_script_failure_fail_open "my_check" .unit
      (fun _ => .error "ErrorTerminated: operation budget exceeded")
      "ErrorTerminated: operation budget exceeded").1 rfl

theorem map_to_violation_of_wellFormed (check_name : String) {d : Dynamic} {v : Violation}
    (h : WellFormedRecord d v) : map_to_violation check_name d = some v := by
  obtain ⟨m, rfl, hop, hpr, hal⟩ := h
  simp only [map_to_violation, hop, hpr, hal, Violation.new]

/-- Claim C2: a unit return decodes to no violations; a well-formed
record decodes to exactly one violation with the three strings
verbatim; an array of well-formed records decodes to exactly the
corresponding violations in array order; a return of a wrong type, or a
record missing or misnaming a required field, decodes to exactly one
synthetic violation whose operation names the script. -/
theorem c2_script_result_decoding :
    ∀ (check_name : String),
      parse_script_result check_name .unit = [] ∧
      (∀ (d : Dynamic) (v : Violation), WellFormedRecord d v →
        parse_script_result check_name d = [v]) ∧
      (∀ (ms : List Dynamic) (vs : List Violation),
        List.Forall₂ (WellFormedRecord) ms vs →
        parse_script_result check_name (.array ms) = vs) ∧
      (∀ d : Dynamic, d ≠ .unit → (∀ m, d ≠ .map m) → (∀ xs, d ≠ .array xs) →
        parse_script_result check_name d =
          [Violation.new ("SCRIPT ERROR: " ++ check_name)
            ("Custom check returned " ++ d.typeName ++ ", expected (), map, or array")
            "Fix the custom check script to return a valid type."]) ∧
      (∀ m : List (String × Dynamic),
        ((mapGet m "operation").bind Dynamic.intoString = none ∨
         (mapGet m "problem").bind Dynamic.intoString = none ∨
         (mapGet m "safe_alternative").bind Dynamic.intoString = none) →
        (parse_script_result check_name (.map m)).length = 1 ∧
        ∀ v ∈ parse_script_result check_name (.map m),
          v.operation = "SCRIPT ERROR: " ++ check_name) := by
  intro check_name
  refine ⟨rfl, ?_, ?_, ?_, ?_⟩
  · intro d v h
    obtain ⟨m, rfl, -⟩ := id h
    simp only [parse_script_result, map_to_violation_of_wellFormed check_name h]
  · intro ms vs h
    induction h with
    | nil => rfl
    | cons hdv htl ih =>
        simp only [parse_script_result, List.filterMap_cons,
          map_to_violation_of_wellFormed check_name hdv] at ih ⊢
        rw [ih]
  · intro d hu hm ha
    match d with
    | .unit => exact absurd rfl hu
    | .map m => exact absurd rfl (hm m)
    | .array xs => exact absurd rfl (ha xs)
    | .str s => rfl
    | .int n => rfl
    | .boolean b => rfl
  · intro m hmiss
    have herr : map_to_violation check_name (.map m) =
        some (Violation.new ("SCRIPT ERROR: " ++ check_name)
          (missingKeysProblem ((m.map Prod.fst).mergeSort (fun a b => a ≤ b)))
          "Fix the custom check script to return all three required keys.") := by
      simp only [map_to_violation]
      split
      · next op prob alt hop hpr hal =>
          rcases hmiss with h | h | h
          · rw [hop] at h; cases h
          · rw [hpr] at h; cases h
          · rw [hal] at h; cases h
      · rfl
    constructor
    · simp [parse_script_result, herr]
    · intro v hv
      simp only [parse_script_result, herr, List.mem_singleton] at hv
      rw [hv]
      rfl

/-- Witness for C2 at concrete script return values. -/
theorem c2_script_result_decoding_witness :
    parse_script_result "my_check"
      (.map [("operation", .str "OP"), ("problem", .str "P"),
             ("safe_alternative", .str "S")]) =
      [Violation.new "OP" "P" "S"] ∧
    parse_script_result "my_check" (.str "oops") =
      [Violation.new "SCRIPT ERROR: my_check"
        "Custom check returned string, expected (), map, or array"
        "Fix the custom check script to return a valid type."] ∧
    parse_script_result "my_check"
      (.array [.map [("operation", .str "O1"), ("problem", .str "P1"),
                     ("safe_alternative", .str "S1")],
               .map [("operation", .str "O2"), ("problem", .str "P2"),
                     ("safe_alternative", .str "S2")]]) =
      [Violation.new "O1" "P1" "S1", Violation.new "O2" "P2" "S2"] := by
  have h := c2_script_result_decoding "my_check"
  refine ⟨?_, ?_, ?_⟩
  · exact h.2.1 _ (Violation.new "OP" "P" "S") ⟨_, rfl, rfl, rfl, rfl⟩
  · exact h.2.2.2.1 (.str "oops") (by intro hc; cases hc) (by intro m hc; cases hc)
      (by intro xs hc; cases hc)
  · exact h.2.2.1 _ [Violation.new "O1" "P1" "S1", Violation.new "O2" "P2" "S2"]
      (.cons ⟨_, rfl, rfl, rfl, rfl⟩ (.cons ⟨_, rfl, rfl, rfl, rfl⟩ .nil))

/-- Counterexample for C4: a well-formed custom-script record may carry
empty strings, and the decoder preserves them verbatim, so the system
emits a `Violation` whose three fields are all empty. -/
theorem c4_counterexample :
    parse_script_result "my_check"
      (.map [("operation", .str ""), ("problem", .str ""),
             ("safe_alternative", .str "")]) = [Violation.new "" "" ""] ∧
    (Violation.new "" "" "").operation = "" ∧
    (Violation.new "" "" "").problem = "" ∧
    (Violation.new "" "" "").safe_alternative = "" :=
  ⟨rfl, rfl, rfl, rfl⟩

/-- Claim C4 (amended): every violation emitted by the modelled
built-in checks (`AddColumnCheck`, `DropTableCheck`, the REINDEX
violation builder) has non-empty operation, problem and
safe_alternative; every synthetic script-error violation does too; a
violation decoded from a well-formed custom-script record carries the
script's three strings verbatim, so its fields are non-empty only when
the script's strings are. -/
theorem c4_violation_fields_nonempty :
    (∀ (node : NodeEnum) (config : Config) (v : Violation),
      v ∈ addColumnCheck_check node config →
      v.operation ≠ "" ∧ v.problem ≠ "" ∧ v.safe_alternative ≠ "") ∧
    (∀ (stmt : SqlStatement) (v : Violation), v ∈ dropTableCheck_check stmt →
      v.operation ≠ "" ∧ v.problem ≠ "" ∧ v.safe_alternative ≠ "") ∧
    (∀ m : ReindexMatch,
      (create_reindex_violation m).operation ≠ "" ∧
      (create_reindex_violation m).problem ≠ "" ∧
      (create_reindex_violation m).safe_alternative ≠ "") ∧
    (∀ (check_name : String) (d : Dynamic) (v : Violation),
      map_to_violation check_name d = some v →
      WellFormedRecord d v ∨
        (v.operation = "SCRIPT ERROR: " ++ check_name ∧
          v.problem ≠ "" ∧ v.safe_alternative ≠ "")) := by
  refine ⟨?_, ?_, ?_, ?_⟩
  · intro node config v hv
    unfold addColumnCheck_check at hv
    split at hv
    · cases hv
    · obtain ⟨cmd, -, hsome⟩ := List.mem_filterMap.mp hv
      split at hsome
      · cases hsome
      · split at hsome
        · cases hsome
        · split at hsome
          · cases hsome
          · obtain rfl := (Option.some.inj hsome).symm
            refine ⟨?_, ?_, ?_⟩
            · show ("ADD COLUMN with DEFAULT" : String) ≠ ""
              decide
            · repeat apply append_ne_left
              decide
            · repeat apply append_ne_left
              decide
  · intro stmt v hv
    match stmt with
    | .otherStatement => cases hv
    | .dropStmt ot ie names casc restr =>
        simp only [dropTableCheck_check] at hv
        split at hv
        · obtain ⟨nm, -, rfl⟩ := List.mem_map.mp hv
          refine ⟨?_, ?_, ?_⟩
          · show ("DROP TABLE" : String) ≠ ""
            decide
          · repeat apply append_ne_left
            decide
          · repeat apply append_ne_left
            decide
        · cases hv
  · intro m
    refine ⟨?_, ?_, ?_⟩
    · show ("REINDEX without CONCURRENTLY" : String) ≠ ""
      decide
    · repeat apply append_ne_left
      decide
    · repeat apply append_ne_left
      decide
  · intro check_name d v hv
    match d with
    | .unit => cases hv
    | .str s => cases hv
    | .int n => cases hv
    | .boolean b => cases hv
    | .array xs => cases hv
    | .map m =>
        simp only [map_to_violation] at hv
        split at hv
        · next op prob alt hop hpr hal =>
            obtain rfl := (Option.some.inj hv).symm
            exact Or.inl ⟨m, rfl, hop, hpr, hal⟩
        · obtain rfl := (Option.some.inj hv).symm
          refine Or.inr ⟨rfl, ?_, ?_⟩
          · repeat apply append_ne_left
            decide
          · show ("Fix the custom check script to return all three required keys." : String) ≠ ""
            decide

/-- Witness for C4 (amended) at a concrete built-in violation. -/
theorem c4_violation_fields_nonempty_witness :
    (dropTableViolation false false false "users").operation ≠ "" ∧
    (dropTableViolation false false false "users").problem ≠ "" ∧
    (dropTableViolation false false false "users").safe_alternative ≠ "" :=
  c4_violation_fields_nonempty.2.1 (.dropStmt .table false ["users"] false false)
    (dropTableViolation false false false "users") (List.Mem.head _)

/-- Claim C10: when parsing succeeds, `check_sql` returns the REINDEX
violations followed by the registry's; when parsing fails it returns
`Ok` with exactly the REINDEX violations whenever the raw text contains
a REINDEX pattern (that list being empty when `ReindexCheck` is
disabled), and propagates the parse error only when no REINDEX pattern
is present. -/
theorem c10_parse_failure_reindex_fallback :
    ∀ (config : Config) (registryCheck : ParsedSqlM → List Violation) (sql : String)
      (parsed : ParsedSqlM) (e : String),
      (check_sql config registryCheck sql (.ok parsed) =
        .ok (checker_detect_reindex_violations config sql ++ registryCheck parsed)) ∧
      (detect_reindex_violations sql ≠ [] →
        check_sql config registryCheck sql (.error e) =
          .ok (checker_detect_reindex_violations config sql)) ∧
      (detect_reindex_violations sql = [] →
        check_sql config registryCheck sql (.error e) = .error e) ∧
      (config.is_check_enabled "ReindexCheck" = false →
        checker_detect_reindex_violations config sql = []) := by
  intro config registryCheck sql parsed e
  refine ⟨rfl, ?_, ?_, ?_⟩
  · intro hne
    have hne' : (detect_reindex_violations sql).isEmpty = false := by
      rcases hd : detect_reindex_violations sql with - | ⟨x, xs⟩
      · exact absurd hd hne
      · rfl
    simp [check_sql, hne']
  · intro hnil
    have h1 : checker_detect_reindex_violations config sql = [] := by
      unfold checker_detect_reindex_violations
      rw [hnil]
      split <;> rfl
    simp [check_sql, h1, hnil]
  · intro hdis
    unfold checker_detect_reindex_violations
    rw [hdis]
    rfl

/-- Witness for C10: a parse failure on SQL containing a REINDEX
pattern falls back to the REINDEX violations, and a parse failure on
REINDEX-free SQL propagates the error. -/
theorem c10_parse_failure_reindex_fallback_witness :
    check_sql Config.default (fun _ => []) "REINDEX TABLE users;" (.error "parse error") =
      .ok (checker_detect_reindex_violations Config.default "REINDEX TABLE users;") ∧
    check_sql Config.default (fun _ => []) "SELECT 1;" (.error "parse error") =
      .error "parse error" := by
  constructor
  · exact (c10_parse_failure_reindex_fallback Config.default (fun _ => [])
      "REINDEX TABLE users;" ⟨[], "REINDEX TABLE users;", []⟩ "parse error").2.1
      (by decide)
  · exact (c10_parse_failure_reindex_fallback Config.default (fun _ => [])
      "SELECT 1;" ⟨[], "SELECT 1;", []⟩ "parse error").2.2.1 (by decide)

/-- Claim C1: `check_stmts_with_context` concatenates per-statement
contributions in statement order; a line is in the ignored set exactly
when it lies strictly between the `start_line` and `end_line` of some
range (so the marker lines themselves are not exempt); a statement
whose resolved line is ignored contributes no violations from any
check; and a statement whose resolved line is in no range is evaluated
by every registered check via `check_node`. -/
theorem c1_ignore_range_exemption :
    ∀ (checks : List Check) (token_starts : List Nat) (sql : List Char)
      (ranges : List IgnoreRange) (config : Config) (stmts : List RawStmt),
      (check_stmts_with_context checks stmts token_starts sql ranges config =
        stmts.flatMap (stmtContribution checks token_starts sql ranges config)) ∧
      (∀ line : Nat, isIgnoredLine ranges line = true ↔
        ∃ r ∈ ranges, r.start_line < line ∧ line < r.end_line) ∧
      (∀ raw : RawStmt,
        isIgnoredLine ranges
          (byte_offset_to_line sql
            (first_token_at_or_after token_starts raw.stmt_location)) = true →
        stmtContribution checks token_starts sql ranges config raw = []) ∧
      (∀ (raw : RawStmt) (node : NodeEnum), extract_node raw = some node →
        isIgnoredLine ranges
          (byte_offset_to_line sql
            (first_token_at_or_after token_starts raw.stmt_location)) = false →
        stmtContribution checks token_starts sql ranges config raw =
          check_node checks node config) := by
  intro checks token_starts sql ranges config stmts
  refine ⟨?_, ?_, ?_, ?_⟩
  · unfold check_stmts_with_context
    rw [foldl_append_eq_flatMap]
    rfl
  · intro line
    unfold isIgnoredLine
    rw [List.any_eq_true]
    constructor
    · rintro ⟨r, hr, hpred⟩
      simp only [Bool.and_eq_true, decide_eq_true_eq] at hpred
      exact ⟨r, hr, by omega, hpred.2⟩
    · rintro ⟨r, hr, h1, h2⟩
      refine ⟨r, hr, ?_⟩
      simp only [Bool.and_eq_true, decide_eq_true_eq]
      exact ⟨by omega, h2⟩
  · intro raw hig
    unfold stmtContribution
    rcases hx : extract_node raw with - | node
    · rfl
    · simp only [hig]
      rfl
  · intro raw node hx hig
    simp only [stmtContribution, hx, hig]
    rfl

/-- Witness for C1: with one registered check, a statement resolving to
line 2 inside the range between marker lines 1 and 3 contributes
nothing, while the same statement with no ignore ranges is evaluated by
the check. -/
theorem c1_ignore_range_exemption_witness :
    stmtContribution [⟨"AddColumnCheck", addColumnCheck_check⟩] [2] "a\nb\nc\n".toList
      [⟨1, 3⟩] Config.default ⟨2, some addColumnDefaultFalseStmt⟩ = [] ∧
    stmtContribution [⟨"AddColumnCheck", addColumnCheck_check⟩] [2] "a\nb\nc\n".toList
      [] Config.default ⟨2, some addColumnDefaultFalseStmt⟩ =
      check_node [⟨"AddColumnCheck", addColumnCheck_check⟩] addColumnDefaultFalseStmt
        Config.default := by
  constructor
  · exact (c1_ignore_range_exemption [⟨"AddColumnCheck", addColumnCheck_check⟩] [2]
      "a\nb\nc\n".toList [⟨1, 3⟩] Config.default []).2.2.1
      ⟨2, some addColumnDefaultFalseStmt⟩
      (by simp [first_token_at_or_after, binSearchAux, byte_offset_to_line, isIgnoredLine])
  · exact (c1_ignore_range_exemption [⟨"AddColumnCheck", addColumnCheck_check⟩] [2]
      "a\nb\nc\n".toList [] Config.default []).2.2.2
      ⟨2, some addColumnDefaultFalseStmt⟩ addColumnDefaultFalseStmt rfl
      (by simp [isIgnoredLine])

theorem sorted_getD_mono {xs : List Nat} (hs : List.Sorted (· ≤ ·) xs)
    {i j : Nat} (hij : i ≤ j) (hj : j < xs.length) : xs.getD i 0 ≤ xs.getD j 0 := by
  have hi : i < xs.length := lt_of_le_of_lt hij hj
  rw [List.getD_eq_getElem xs 0 hi, List.getD_eq_getElem xs 0 hj]
  have h := @List.Sorted.rel_get_of_le ℕ (· ≤ ·) _ xs hs ⟨i, hi⟩ ⟨j, hj⟩ hij
  simpa using h

theorem binSearchAux_spec (xs : List Nat) (target : Nat)
    (hs : List.Sorted (· ≤ ·) xs) :
    ∀ (n left right : Nat), right - left ≤ n → left ≤ right → right ≤ xs.length →
      (∀ j, j < left → xs.getD j 0 < target) →
      (∀ j, right ≤ j → j < xs.length → target ≤ xs.getD j 0) →
      (∀ i, binSearchAux xs target left right = .ok i →
        i < xs.length ∧ xs.getD i 0 = target) ∧
      (∀ i, binSearchAux xs target left right = .error i →
        i ≤ xs.length ∧ (∀ j, j < i → xs.getD j 0 < target) ∧
        (∀ j, i ≤ j → j < xs.length → target ≤ xs.getD j 0)) := by
  intro n
  induction n with
  | zero =>
      intro left right hn hlr hr hleft hright
      have hrl : ¬ left < right := by omega
      constructor
      · intro i hi
        rw [binSearchAux, dif_neg hrl] at hi
        cases hi
      · intro i hi
        rw [binSearchAux, dif_neg hrl] at hi
        obtain rfl : left = i := Except.error.inj hi
        exact ⟨by omega, hleft, fun j hj hjl => hright j (by omega) hjl⟩
  | succ n ih =>
      intro left right hn hlr hr hleft hright
      by_cases h : left < right
      · have hmid_lt : left + (right - left) / 2 < right := by omega
        have hmid_ge : left ≤ left + (right - left) / 2 := by omega
        have hmidlen : left + (right - left) / 2 < xs.length := by omega
        by_cases hv : xs.getD (left + (right - left) / 2) 0 < target
        · have hrec := ih (left + (right - left) / 2 + 1) right (by omega) (by omega) hr
            (fun j hj => by
              have hjm : j ≤ left + (right - left) / 2 := by omega
              exact lt_of_le_of_lt (sorted_getD_mono hs hjm hmidlen) hv)
            hright
          constructor
          · intro i hi
            rw [binSearchAux, dif_pos h] at hi
            dsimp only at hi
            rw [if_pos hv] at hi
            exact hrec.1 i hi
          · intro i hi
            rw [binSearchAux, dif_pos h] at hi
            dsimp only at hi
            rw [if_pos hv] at hi
            exact hrec.2 i hi
        · by_cases hv2 : target < xs.getD (left + (right - left) / 2) 0
          · have hrec := ih left (left + (right - left) / 2) (by omega) (by omega) (by omega)
              hleft
              (fun j hj hjl => by
                have := sorted_getD_mono hs hj hjl
                omega)
            constructor
            · intro i hi
              rw [binSearchAux, dif_pos h] at hi
              dsimp only at hi
              rw [if_neg hv, if_pos hv2] at hi
              exact hrec.1 i hi
            · intro i hi
              rw [binSearchAux, dif_pos h] at hi
              dsimp only at hi
              rw [if_neg hv, if_pos hv2] at hi
              exact hrec.2 i hi
          · have heq : xs.getD (left + (right - left) / 2) 0 = target := by omega
            constructor
            · intro i hi
              rw [binSearchAux, dif_pos h] at hi
              dsimp only at hi
              rw [if_neg hv, if_neg hv2] at hi
              obtain rfl : left + (right - left) / 2 = i := Except.ok.inj hi
              exact ⟨hmidlen, heq⟩
            · intro i hi
              rw [binSearchAux, dif_pos h] at hi
              dsimp only at hi
              rw [if_neg hv, if_neg hv2] at hi
              cases hi
      · constructor
        · intro i hi
          rw [binSearchAux, dif_neg h] at hi
          cases hi
        · intro i hi
          rw [binSearchAux, dif_neg h] at hi
          obtain rfl : left = i := Except.error.inj hi
          exact ⟨by omega, hleft, fun j hj hjl => hright j (by omega) hjl⟩

theorem first_token_spec (token_starts : List Nat) (offset : Nat)
    (hs : List.Sorted (· ≤ ·) token_starts)
    (hex : ∃ x ∈ token_starts, offset ≤ x) :
    first_token_at_or_after token_starts offset ∈ token_starts ∧
    offset ≤ first_token_at_or_after token_starts offset ∧
    ∀ x ∈ token_starts, offset ≤ x → first_token_at_or_after token_starts offset ≤ x := by
  have hspec := binSearchAux_spec token_starts offset hs token_starts.length 0
    token_starts.length (by omega) (by omega) (le_refl _)
    (fun j hj => absurd hj (Nat.not_lt_zero j))
    (fun j hj hjl => absurd (lt_of_le_of_lt hj hjl) (lt_irrefl _))
  unfold first_token_at_or_after
  rcases hbs : binSearchAux token_starts offset 0 token_starts.length with i | i
  all_goals simp only [hbs]
  · obtain ⟨hle, hlo, hhi⟩ := hspec.2 i hbs
    obtain ⟨x0, hx0, hox⟩ := hex
    obtain ⟨k, hk, rfl⟩ := List.mem_iff_getElem.mp hx0
    have hik : i ≤ k := by
      by_contra hc
      have := hlo k (by omega)
      rw [List.getD_eq_getElem token_starts 0 hk] at this
      omega
    have hilen : i < token_starts.length := by omega
    have hget : token_starts.get? i = some token_starts[i] := by
      rw [List.get?_eq_getElem?, List.getElem?_eq_getElem hilen]
    rw [hget]
    refine ⟨List.getElem_mem hilen, ?_, ?_⟩
    · have := hhi i (le_refl i) hilen
      rw [List.getD_eq_getElem token_starts 0 hilen] at this
      exact this
    · intro x hx hox'
      obtain ⟨j, hj, rfl⟩ := List.mem_iff_getElem.mp hx
      have hij : i ≤ j := by
        by_contra hc
        have := hlo j (by omega)
        rw [List.getD_eq_getElem token_starts 0 hj] at this
        omega
      have := sorted_getD_mono hs hij hj
      rw [List.getD_eq_getElem token_starts 0 hilen,
        List.getD_eq_getElem token_starts 0 hj] at this
      exact this
  · obtain ⟨hilen, heq⟩ := hspec.1 i hbs
    rw [List.getD_eq_getElem token_starts 0 hilen] at heq ⊢
    refine ⟨List.getElem_mem hilen, le_of_eq heq.symm, ?_⟩
    intro x hx hox
    rw [heq]
    exact hox

/-- Claim C6: when the scanner's non-comment token offsets are sorted
and some token starts at or after the statement's recorded offset, the
resolved start offset is the least such token offset; and the resolved
line number is one plus the number of newline bytes strictly before the
offset, 1-indexed. -/
theorem c6_statement_line_resolution :
    ∀ (token_starts : List Nat) (offset : Nat) (sql : List Char),
      (List.Sorted (· ≤ ·) token_starts →
        (∃ x ∈ token_starts, offset ≤ x) →
        first_token_at_or_after token_starts offset ∈ token_starts ∧
        offset ≤ first_token_at_or_after token_starts offset ∧
        (∀ x ∈ token_starts, offset ≤ x →
          first_token_at_or_after token_starts offset ≤ x)) ∧
      byte_offset_to_line sql offset = ((sql.take offset).count '\n') + 1 := by
  intro token_starts offset sql
  constructor
  · intro hs hex
    exact first_token_spec token_starts offset hs hex
  · unfold byte_offset_to_line
    rw [← List.take_take, List.take_length]

/-- Witness for C6: resolving from a concrete sorted token list and a
concrete source text. -/
theorem c6_statement_line_resolution_witness :
    first_token_at_or_after [5, 10, 20] 7 ∈ [5, 10, 20] ∧
    7 ≤ first_token_at_or_after [5, 10, 20] 7 ∧
    (∀ x ∈ [5, 10, 20], 7 ≤ x → first_token_at_or_after [5, 10, 20] 7 ≤ x) ∧
    byte_offset_to_line "ab\ncd\nef".toList 6 = 3 := by
  have h := c6_statement_line_resolution [5, 10, 20] 7 "ab\ncd\nef".toList
  have h1 := h.1 (by simp) ⟨10, by simp, by omega⟩
  refine ⟨h1.1, h1.2.1, h1.2.2, ?_⟩
  rw [(c6_statement_line_resolution [5, 10, 20] 6 "ab\ncd\nef".toList).2]
  decide

theorem register_eq_filter (config : Config) (builtins : List Check) :
    register_enabled_checks config builtins =
      builtins.filter (fun c => config.is_check_enabled c.name) := by
  unfold register_enabled_checks
  rw [filter_foldl]
  simp

theorem flatMap_filter_mask {α β : Type _} (p : α → Bool) (f : α → List β) :
    ∀ l : List α, (l.filter p).flatMap f =
      l.flatMap (fun c => if p c then f c else []) := by
  intro l
  induction l with
  | nil => rfl
  | cons x xs ih =>
      by_cases hx : p x = true <;> simp [List.filter_cons, hx, ih]

theorem flatMap_congr_mem {α β : Type _} {l : List α} {f g : α → List β}
    (h : ∀ c ∈ l, f c = g c) : l.flatMap f = l.flatMap g := by
  induction l with
  | nil => rfl
  | cons x xs ih =>
      simp only [List.flatMap_cons, h x (by simp), ih (fun c hc => h c (by simp [hc]))]

theorem is_check_enabled_disableAlso (config : Config) (x check_name : String) :
    (disableAlso config x).is_check_enabled check_name =
      (config.is_check_enabled check_name && !(x == check_name)) := by
  unfold disableAlso Config.is_check_enabled
  simp [List.any_append]

theorem addColumnCheck_ignores_disable (node : NodeEnum) (c1 c2 : Config)
    (h : c1.postgres_version = c2.postgres_version) :
    addColumnCheck_check node c1 = addColumnCheck_check node c2 := by
  have hv : c1.pgVersionAtLeast 11 = c2.pgVersionAtLeast 11 := by
    unfold Config.pgVersionAtLeast
    rw [h]
  unfold addColumnCheck_check
  simp only [hv]

/-- Claim C7: provided the checks themselves do not read
`disable_checks` (true of every built-in, which consult only the target
version), disabling `x` registers exactly the other checks in unchanged
order; the full run then produces the run without `x` disabled with
precisely the contributions of checks named `x` removed and everything
else in place; and disabling a name that no check carries leaves the
output identical. -/
theorem c7_disable_by_name :
    ∀ (allChecks : List Check) (config : Config) (x : String) (stmts : List RawStmt)
      (token_starts : List Nat) (sql : List Char) (ranges : List IgnoreRange),
      (∀ c ∈ allChecks, ∀ node : NodeEnum,
        c.run node (disableAlso config x) = c.run node config) →
      (register_enabled_checks (disableAlso config x) allChecks =
        (register_enabled_checks config allChecks).filter (fun c => !(c.name == x))) ∧
      (check_stmts_with_context (register_enabled_checks (disableAlso config x) allChecks)
          stmts token_starts sql ranges (disableAlso config x) =
        stmts.flatMap (fun raw =>
          match extract_node raw with
          | none => []
          | some node =>
              if isIgnoredLine ranges (byte_offset_to_line sql
                  (first_token_at_or_after token_starts raw.stmt_location)) then []
              else (register_enabled_checks config allChecks).flatMap
                (fun c => if c.name == x then [] else c.run node config))) ∧
      (x ∉ allChecks.map Check.name →
        check_stmts_with_context (register_enabled_checks (disableAlso config x) allChecks)
          stmts token_starts sql ranges (disableAlso config x) =
        check_stmts_with_context (register_enabled_checks config allChecks)
          stmts token_starts sql ranges config) := by
  intro allChecks config x stmts token_starts sql ranges hrun
  have hA : register_enabled_checks (disableAlso config x) allChecks =
      (register_enabled_checks config allChecks).filter (fun c => !(c.name == x)) := by
    rw [register_eq_filter, register_eq_filter, List.filter_filter]
    apply List.filter_congr
    intro c _hc
    rw [is_check_enabled_disableAlso]
    have hxc : (x == c.name) = (c.name == x) := by
      by_cases h : x = c.name
      · subst h
        rfl
      · rw [beq_eq_false_iff_ne.mpr h, beq_eq_false_iff_ne.mpr (Ne.symm h)]
    rw [hxc, Bool.and_comm]
  have hmem : ∀ c ∈ register_enabled_checks config allChecks, c ∈ allChecks := by
    intro c hc
    rw [register_eq_filter] at hc
    exact (List.mem_filter.mp hc).1
  refine ⟨hA, ?_, ?_⟩
  · rw [hA]
    unfold check_stmts_with_context
    rw [foldl_append_eq_flatMap, List.nil_append]
    apply flatMap_congr_mem
    intro raw _hraw
    unfold stmtContribution
    cases hx : extract_node raw
    · rfl
    · dsimp only
      by_cases hig : isIgnoredLine ranges (byte_offset_to_line sql
          (first_token_at_or_after token_starts raw.stmt_location)) = true
      · rw [if_pos hig, if_pos hig]
      · rw [if_neg hig, if_neg hig]
        unfold check_node
        rw [flatMap_filter_mask]
        apply flatMap_congr_mem
        intro c hc
        cases hb : c.name == x
        · simp only [Bool.not_false, if_pos, if_neg]
          simp only [Bool.false_eq_true, if_neg]
          exact hrun c (hmem c hc) _
        · simp
  · intro hx
    have hall : ∀ c ∈ register_enabled_checks config allChecks, (!(c.name == x)) = true := by
      intro c hc
      have : c.name ∈ allChecks.map Check.name := List.mem_map_of_mem Check.name (hmem c hc)
      cases hb : c.name == x
      · rfl
      · exact absurd (beq_iff_eq.mp hb ▸ this) hx
    rw [hA, List.filter_eq_self.mpr hall]
    unfold check_stmts_with_context
    rw [foldl_append_eq_flatMap, foldl_append_eq_flatMap, List.nil_append, List.nil_append]
    apply flatMap_congr_mem
    intro raw _hraw
    unfold stmtContribution
    cases hxr : extract_node raw
    · rfl
    · dsimp only
      by_cases hig : isIgnoredLine ranges (byte_offset_to_line sql
          (first_token_at_or_after token_starts raw.stmt_location)) = true
      · rw [if_pos hig, if_pos hig]
      · rw [if_neg hig, if_neg hig]
        unfold check_node
        apply flatMap_congr_mem
        intro c hc
        exact hrun c (hmem c hc) _

/-- Witness for C7: disabling the only registered check empties the
registry, and the run over one statement yields nothing where the
undisabled run yields one violation. -/
theorem c7_disable_by_name_witness :
    register_enabled_checks (disableAlso Config.default "AddColumnCheck")
        [⟨"AddColumnCheck", addColumnCheck_check⟩] =
      (register_enabled_checks Config.default
        [⟨"AddColumnCheck", addColumnCheck_check⟩]).filter
          (fun c => !(c.name == "AddColumnCheck")) :=
  (c7_disable_by_name [⟨"AddColumnCheck", addColumnCheck_check⟩] Config.default
    "AddColumnCheck" [] [] [] []
    (fun c hc node => by
      rcases List.mem_singleton.mp hc with rfl
      exact addColumnCheck_ignores_disable node _ _ rfl)).1

theorem load_foldl_fst (compile : String → Except String (Dynamic → Except String Dynamic))
    (config : Config) :
    ∀ (files : List DirEntry) (acc : List CustomCheckM × List ScriptError),
      (files.foldl (fun acc e =>
        if !(config.is_check_enabled e.stem) then acc
        else
          match e.source with
          | .error msg => (acc.1, acc.2 ++ [⟨e.fileName, "Failed to read: " ++ msg⟩])
          | .ok src =>
              match compile src with
              | .ok evalFn => (acc.1 ++ [⟨e.stem, evalFn⟩], acc.2)
              | .error msg =>
                  (acc.1, acc.2 ++ [⟨e.fileName, "Compilation error: " ++ msg⟩]))
        acc).1 = acc.1 ++ files.filterMap (keepEntry compile config) := by
  intro files
  induction files with
  | nil =>
      intro acc
      simp
  | cons e fs ih =>
      intro acc
      obtain ⟨fn, hx, stem, src⟩ := e
      rw [List.foldl_cons, List.filterMap_cons]
      cases hen : config.is_check_enabled stem
      · simp only [keepEntry, hen, Bool.not_false, eq_self_iff_true, ite_true]
        exact ih acc
      · cases src with
        | error msg =>
            simp only [keepEntry, hen, Bool.not_true, Bool.false_eq_true, ite_false]
            exact ih _
        | ok s =>
            cases hc : compile s with
            | error msg =>
                simp only [keepEntry, hen, Bool.not_true, Bool.false_eq_true, ite_false, hc]
                exact ih _
            | ok evalFn =>
                simp only [keepEntry, hen, Bool.not_true, Bool.false_eq_true, ite_false, hc]
                rw [ih _]
                simp

theorem load_custom_checks_fst (compile : String → Except String (Dynamic → Except String Dynamic))
    (entries : List DirEntry) (config : Config) :
    (load_custom_checks compile entries config).1 =
      ((entries.filter (fun e => e.hasRhaiExt)).mergeSort
        (fun a b => a.fileName ≤ b.fileName)).filterMap (keepEntry compile config) := by
  unfold load_custom_checks
  rw [load_foldl_fst compile config]
  simp

/-- Claim C8: the run is a pure function of its inputs, so identical
runs produce identical violation sequences; the enabled built-ins keep
their fixed registration order with exactly the disabled names removed;
the full registry is those built-ins followed by the loaded scripts;
scripts are loaded from the `.rhai` entries in filename-sorted order;
and violations are emitted in source statement order and, within one
statement, in registry order. -/
theorem c8_determinism_and_ordering :
    ∀ (builtins : List Check) (config : Config)
      (serialize : NodeEnum → Except String Dynamic)
      (compile : String → Except String (Dynamic → Except String Dynamic))
      (entries : List DirEntry) (stmts : List RawStmt) (token_starts : List Nat)
      (sql : List Char) (ranges : List IgnoreRange),
      (check_stmts_with_context (full_registry config builtins serialize compile entries)
          stmts token_starts sql ranges config =
        check_stmts_with_context (full_registry config builtins serialize compile entries)
          stmts token_starts sql ranges config) ∧
      (register_enabled_checks config builtins =
        builtins.filter (fun c => config.is_check_enabled c.name)) ∧
      ((full_registry config builtins serialize compile entries).map Check.name =
        (register_enabled_checks config builtins).map Check.name ++
          (load_custom_checks compile entries config).1.map CustomCheckM.name) ∧
      (List.Pairwise (fun a b : DirEntry => a.fileName ≤ b.fileName)
        ((entries.filter (fun e => e.hasRhaiExt)).mergeSort
          (fun a b => a.fileName ≤ b.fileName)) ∧
       (load_custom_checks compile entries config).1 =
        ((entries.filter (fun e => e.hasRhaiExt)).mergeSort
          (fun a b => a.fileName ≤ b.fileName)).filterMap (keepEntry compile config)) ∧
      (check_stmts_with_context (full_registry config builtins serialize compile entries)
          stmts token_starts sql ranges config =
        stmts.flatMap (stmtContribution (full_registry config builtins serialize compile entries)
          token_starts sql ranges config) ∧
       ∀ (checks : List Check) (node : NodeEnum),
        check_node checks node config = checks.flatMap (fun c => c.run node config)) := by
  intro builtins config serialize compile entries stmts token_starts sql ranges
  refine ⟨rfl, register_eq_filter config builtins, ?_, ⟨?_, ?_⟩, ⟨?_, ?_⟩⟩
  · unfold full_registry
    rw [List.map_append, List.map_map]
    rfl
  · have hp := @List.sorted_mergeSort DirEntry
      (fun a b => decide (a.fileName ≤ b.fileName))
      (fun a b c hab hbc => by
        simp only [decide_eq_true_eq] at hab hbc ⊢
        exact le_trans hab hbc)
      (fun a b => by
        simp only [Bool.or_eq_true, decide_eq_true_eq]
        exact le_total a.fileName b.fileName)
      (entries.filter (fun e => e.hasRhaiExt))
    exact hp.imp (fun h => of_decide_eq_true h)
  · exact load_custom_checks_fst compile entries config
  · unfold check_stmts_with_context
    rw [foldl_append_eq_flatMap, List.nil_append]
  · intro checks node
    rfl

end DieselGuard
